import Mathlib

/-!
Verification development for the runiq duplicate-detection engine.

Records are byte sequences, embedded as `List Nat` (each entry one byte).
The four filter strategies from `src/filters.rs` and
`src/filters/consecutive.rs` are embedded as pure state-passing functions:
`detect` takes the filter state and an input record and returns the boolean
result together with the updated state, mirroring `fn detect(&mut self,
input: &[u8]) -> bool`.  Hash sets are embedded as `Finset`; the external
xxhash digest and the external scalable bloom filter crate are modelled
from the specification.  The statistics accumulator from
`src/statistics.rs` and the line-trimming logic of the driver loop in
`src/main.rs` are embedded as well; a panicking slice index in the driver
is modelled by `Option.none`.
-/

/-- Modelled from the spec: the external `xxhash2::hash64` function, "a
single fast 64-bit hash of the record" (spec 4.3/4.5).  The exact mixing
function is external-crate code, so it is modelled as a deterministic fold
of the input bytes reduced modulo `2 ^ 64`; every claim below depends only
on the digest being a deterministic total function into 64-bit values. -/
def xxhash64 (input : List Nat) (seed : Nat) : Nat :=
  input.foldl (fun h b => (h * 31 + b) % 2 ^ 64) seed

/-- Structure `NaiveFilter` from `src/filters.rs`: a set of the raw records. -/
structure NaiveFilter where
  inner : Finset (List Nat)
deriving DecidableEq

/-- Constructor `NaiveFilter::new`, via `NaiveFilter::default` (an empty set). -/
def NaiveFilter.new : NaiveFilter := ⟨∅⟩

/-- Operation `NaiveFilter::detect`: `self.inner.insert(input.to_vec())`; the result
of `HashSet::insert` is `true` exactly when the value was newly added. -/
def NaiveFilter.detect (s : NaiveFilter) (input : List Nat) :
    Bool × NaiveFilter :=
  (decide (input ∉ s.inner), ⟨insert input s.inner⟩)

/-- Structure `DigestFilter` from `src/filters.rs`: a set of 64-bit digests. -/
structure DigestFilter where
  inner : Finset Nat
deriving DecidableEq

/-- Constructor `DigestFilter::new`, via `DigestFilter::default` (an empty set). -/
def DigestFilter.new : DigestFilter := ⟨∅⟩

/-- Operation `DigestFilter::detect`: hash the input to a 64-bit digest with
`xxhash2::hash64(input, 0)` and insert the digest into the set. -/
def DigestFilter.detect (s : DigestFilter) (input : List Nat) :
    Bool × DigestFilter :=
  let digest := xxhash64 input 0
  (decide (digest ∉ s.inner), ⟨insert digest s.inner⟩)

/-- Structure `SortedFilter` from `src/filters.rs`: holds only the previous value,
initialised by `SortedFilter::new` to `Vec::new()` (the empty record). -/
structure SortedFilter where
  inner : List Nat
deriving DecidableEq

/-- Constructor `SortedFilter::new`: `SortedFilter { inner: Vec::new() }`. -/
def SortedFilter.new : SortedFilter := ⟨[]⟩

/-- Operation `SortedFilter::detect`: return `false` if the input equals the stored
value, otherwise overwrite the stored value and return `true`. -/
def SortedFilter.detect (s : SortedFilter) (input : List Nat) :
    Bool × SortedFilter :=
  if input = s.inner then (false, s) else (true, ⟨input⟩)

/-- Structure `ConsecutiveFilter` from `src/filters/consecutive.rs`: holds only the
previous value, as a string. -/
structure ConsecutiveFilter where
  inner : String
deriving DecidableEq

/-- Constructor `ConsecutiveFilter::new`: the stored value starts as the string
`"rcf_default"`. -/
def ConsecutiveFilter.new : ConsecutiveFilter := ⟨"rcf_default"⟩

/-- Operation `ConsecutiveFilter::detect`: return `false` on a consecutive
collision, otherwise overwrite the previous value and return `true`. -/
def ConsecutiveFilter.detect (s : ConsecutiveFilter) (input : String) :
    Bool × ConsecutiveFilter :=
  if input = s.inner then (false, s) else (true, ⟨input⟩)

/-- Ceiling base-2 logarithm of a natural number, computed by scanning
the exponents below 64 (probe counts never exceed the 64-bit digest
width). -/
def ceilLog2 (n : Nat) : Nat :=
  ((List.range 64).find? (fun k => decide (n ≤ 2 ^ k))).getD 64

/-- Product of two rationals, written out on numerators and denominators
(`mkRat` renormalises); kept as a plain definition so that it evaluates
inside the kernel. -/
def ratMul (a b : ℚ) : ℚ := mkRat (a.num * b.num) (a.den * b.den)

/-- Reciprocal of a positive rational, written out on the numerator and
denominator; kept as a plain definition so that it evaluates inside the
kernel. -/
def ratRecip (p : ℚ) : ℚ := mkRat (p.den : Int) p.num.toNat

/-- Modelled from the spec: the number of hash probes of a bloom layer
with target error rate `p`, "derived from `p_i`" (spec 4.5); the standard
derivation `k = ceil(log2(1/p))`, kept at least 1. -/
def layerHashes (p : ℚ) : Nat := max 1 (ceilLog2 (ratRecip p).ceil.toNat)

/-- Modelled from the spec: the bit-array size of a bloom layer, "derived
from its rated capacity and its own target error rate" (spec 4.5); the
standard `c * k / ln 2` sizing, over-approximated by `2 * c * k`. -/
def layerSlots (c k : Nat) : Nat := 2 * c * k

/-- Modelled from the spec: one layer of the scalable bloom filter (spec
4.5): a bit array (the set of set bit positions), `k` hash probes, an
occupancy count capped at the rated capacity, and the layer's own target
error rate. -/
structure BloomLayer where
  size : Nat
  hashes : Nat
  count : Nat
  capacity : Nat
  err : ℚ
  bits : Finset Nat
deriving DecidableEq

/-- Modelled from the spec: a fresh layer sized for capacity `c` and error
rate `p`, with no bits set and zero occupancy. -/
def BloomLayer.fresh (c : Nat) (p : ℚ) : BloomLayer :=
  let k := layerHashes p
  { size := layerSlots c k, hashes := k, count := 0, capacity := c,
    err := p, bits := ∅ }

/-- Modelled from the spec: the probe positions of digest `d` in layer
`L`, "via two independent splits of the 64-bit value combined linearly"
(spec 4.5): `h1 = d mod 2^32`, `h2 = d div 2^32`, probe `i` at
`(h1 + i * h2) mod size`. -/
def layerProbes (L : BloomLayer) (d : Nat) : List Nat :=
  (List.range L.hashes).map
    (fun i => (d % 2 ^ 32 + i * (d / 2 ^ 32)) % L.size)

/-- Modelled from the spec: a layer reports digest `d` positive when all
of its probe positions are set. -/
def BloomLayer.has (L : BloomLayer) (d : Nat) : Bool :=
  (layerProbes L d).all (fun i => decide (i ∈ L.bits))

/-- Modelled from the spec: the external scalable bloom filter crate's
structure (spec 4.5): an ordered sequence of layers, oldest first, with
the active (newest) layer kept apart, plus the growth factor and
tightening ratio used when a new layer is appended. -/
structure ScalableBloomFilter where
  older : List BloomLayer
  active : BloomLayer
  growth : Nat
  tightening : ℚ
deriving DecidableEq

/-- Modelled from the spec: `ScalableBloomFilter::new(capacity, p)` starts
with one fresh layer sized for the initial estimated capacity and error
rate, with the documented default growth factor 2 and tightening ratio
1/2 (spec 6). -/
def ScalableBloomFilter.new (c : Nat) (p : ℚ) : ScalableBloomFilter :=
  { older := [], active := BloomLayer.fresh c p, growth := 2,
    tightening := mkRat 1 2 }

/-- Modelled from the spec: a digest is "seen" when it probes positive in
any layer (spec 4.5), newest first. -/
def ScalableBloomFilter.contains (f : ScalableBloomFilter) (d : Nat) :
    Bool :=
  f.active.has d || f.older.any (fun L => L.has d)

/-- Modelled from the spec: recording a digest in a layer sets its probe
bits and bumps the occupancy count; size, probe count, capacity and error
rate are untouched. -/
def BloomLayer.record (a : BloomLayer) (d : Nat) : BloomLayer :=
  { a with
    bits := a.bits ∪ (layerProbes a d).toFinset
    count := a.count + 1 }

/-- Modelled from the spec: insertion sets the probe bits in the active
layer only and bumps its occupancy; when the active layer reaches its
rated capacity a new layer is appended, sized for `capacity * growth` and
error rate `err * tightening` (spec 4.5). -/
def ScalableBloomFilter.insert (f : ScalableBloomFilter) (d : Nat) :
    ScalableBloomFilter :=
  let a' := f.active.record d
  if a'.capacity ≤ a'.count then
    { f with
      older := f.older ++ [a']
      active := BloomLayer.fresh (a'.capacity * f.growth) (ratMul a'.err f.tightening) }
  else
    { f with active := a' }

/-- Structure `BloomFilter` from `src/filters.rs`, wrapping the scalable bloom
filter. -/
structure BloomFilter where
  inner : ScalableBloomFilter
deriving DecidableEq

/-- Constructor `BloomFilter::new`: `ScalableBloomFilter::new(1_000_000, 1e-8)` (the
float literal `1e-8` modelled as the exact rational `1 / 10^8`). -/
def BloomFilter.new : BloomFilter :=
  ⟨ScalableBloomFilter.new 1000000 (mkRat 1 100000000)⟩

/-- Operation `BloomFilter::detect`: hash the input with `xxhash2::hash64(input,
0)`, short-circuit to `false` when the digest is already contained, and
otherwise insert it and return `true`. -/
def BloomFilter.detect (s : BloomFilter) (input : List Nat) :
    Bool × BloomFilter :=
  let digest := xxhash64 input 0
  if s.inner.contains digest then (false, s)
  else (true, ⟨s.inner.insert digest⟩)

/-- Fold `NaiveFilter::detect` over a list of records, keeping the final
state (the driver loop's repeated `filter.detect`). -/
def NaiveFilter.run (s : NaiveFilter) (l : List (List Nat)) : NaiveFilter :=
  l.foldl (fun t y => (t.detect y).2) s

/-- Fold `DigestFilter::detect` over a list of records. -/
def DigestFilter.run (s : DigestFilter) (l : List (List Nat)) :
    DigestFilter :=
  l.foldl (fun t y => (t.detect y).2) s

/-- Fold `SortedFilter::detect` over a list of records. -/
def SortedFilter.run (s : SortedFilter) (l : List (List Nat)) :
    SortedFilter :=
  l.foldl (fun t y => (t.detect y).2) s

/-- Fold `ConsecutiveFilter::detect` over a list of records. -/
def ConsecutiveFilter.run (s : ConsecutiveFilter) (l : List String) :
    ConsecutiveFilter :=
  l.foldl (fun t y => (t.detect y).2) s

/-- Fold `BloomFilter::detect` over a list of records. -/
def BloomFilter.run (s : BloomFilter) (l : List (List Nat)) : BloomFilter :=
  l.foldl (fun t y => (t.detect y).2) s

/-- Number of `true` results when folding `NaiveFilter::detect` over a
list of records. -/
def NaiveFilter.countNew (s : NaiveFilter) : List (List Nat) → Nat
  | [] => 0
  | x :: xs =>
    (if (s.detect x).1 then 1 else 0) + ((s.detect x).2.countNew xs)

/-- Number of `true` results when folding `DigestFilter::detect` over a
list of records. -/
def DigestFilter.countNew (s : DigestFilter) : List (List Nat) → Nat
  | [] => 0
  | x :: xs =>
    (if (s.detect x).1 then 1 else 0) + ((s.detect x).2.countNew xs)

/-- Structure `Stats` from `src/statistics.rs`: unique, total and size counters
(`u64` counters embedded as naturals; a run can never perform `2 ^ 64`
increments, so wrap-around is unreachable and out of scope). -/
structure Stats where
  unique : Nat
  total : Nat
  size : Nat
deriving DecidableEq

/-- Constructor `Stats::new`, via `Stats::default`: all counters zero. -/
def Stats.new : Stats := ⟨0, 0, 0⟩

/-- Operation `Stats::add_unique`: bump both the total and the unique counter. -/
def Stats.add_unique (s : Stats) : Stats :=
  { s with total := s.total + 1, unique := s.unique + 1 }

/-- Operation `Stats::add_duplicate`: bump only the total counter. -/
def Stats.add_duplicate (s : Stats) : Stats :=
  { s with total := s.total + 1 }

/-- Operation `Stats::add_size`: add `n` to the size counter. -/
def Stats.add_size (s : Stats) (n : Nat) : Stats :=
  { s with size := s.size + n }

/-- Accessor `Stats::uniques`: the unique counter. -/
def Stats.uniques (s : Stats) : Nat := s.unique

/-- Accessor `Stats::duplicates`: `self.total - self.unique`, an unsigned
subtraction. -/
def Stats.duplicates (s : Stats) : Nat := s.total - s.unique

/-- Accessor `Stats::rate`: `(unique as f64 / total as f64) * 100.0`, the floats
modelled as exact rationals. -/
def Stats.rate (s : Stats) : ℚ := ((s.unique : ℚ) / (s.total : ℚ)) * 100

/-- The duplicate rate printed by `Stats::print`: the table shows
`(100.0 - self.rate()) / 100.0` under a percent format that multiplies by
100 again, so the printed percentage is `100 - rate`. -/
def Stats.dupRate (s : Stats) : ℚ := 100 - s.rate

/-- One call into the `Stats` accumulator, as issued by the driver loop:
`add_unique`, `add_duplicate` or `add_size n`. -/
inductive StatOp where
  | unique : StatOp
  | dup : StatOp
  | size : Nat → StatOp
deriving DecidableEq

/-- Apply one accumulator call to a `Stats` value. -/
def Stats.apply (s : Stats) : StatOp → Stats
  | StatOp.unique => s.add_unique
  | StatOp.dup => s.add_duplicate
  | StatOp.size n => s.add_size n

/-- Apply a whole sequence of accumulator calls, oldest first. -/
def Stats.applyAll (s : Stats) (ops : List StatOp) : Stats :=
  ops.foldl Stats.apply s

/-- Number of `add_unique` calls in a sequence of accumulator calls. -/
def uniqueCount : List StatOp → Nat
  | [] => 0
  | StatOp.unique :: t => uniqueCount t + 1
  | _ :: t => uniqueCount t

/-- Number of `add_duplicate` calls in a sequence of accumulator calls. -/
def dupCount : List StatOp → Nat
  | [] => 0
  | StatOp.dup :: t => dupCount t + 1
  | _ :: t => dupCount t

/-- The line-trimming logic of the `Ok(n)` arm of the driver loop in
`src/main.rs`: `trim` starts as the whole buffer of the `n` bytes read;
if `trim[n - 1]` is a newline the slice is cut to `trim[..n - 1]`; then
`trim[n - 1]` is examined again and, if it is a carriage return, the
slice is cut to `trim[..n - 1]` again.  A slice index that is out of
bounds panics in the source and is modelled as `none`. -/
def trimLine (buf : List Nat) : Option (List Nat) :=
  let n := buf.length
  let trim0 := buf
  match trim0[n - 1]? with
  | none => none
  | some c =>
    let trim1 := if c = 10 then trim0.take (n - 1) else trim0
    match trim1[n - 1]? with
    | none => none
    | some c2 =>
      let trim2 := if c2 = 13 then trim1.take (n - 1) else trim1
      some trim2

/-- A fresh bloom layer reports every digest negative: it has at least
one probe position and no bits set. -/
theorem bloomLayer_fresh_has (c : Nat) (p : ℚ) (d : Nat) :
    (BloomLayer.fresh c p).has d = false := by
  have hk : 0 < (BloomLayer.fresh c p).hashes :=
    Nat.lt_of_lt_of_le Nat.one_pos (le_max_left _ _)
  have h0 : (d % 2 ^ 32 + 0 * (d / 2 ^ 32)) % (BloomLayer.fresh c p).size ∈
      layerProbes (BloomLayer.fresh c p) d := by
    rw [layerProbes]
    exact List.mem_map_of_mem _ (List.mem_range.mpr hk)
  rcases h : (BloomLayer.fresh c p).has d with _ | _
  · rfl
  · exfalso
    rw [BloomLayer.has, List.all_eq_true] at h
    have h2 := h _ h0
    simp [BloomLayer.fresh] at h2

/-- A freshly constructed scalable bloom filter contains no digest. -/
theorem sbf_new_contains (c : Nat) (p : ℚ) (d : Nat) :
    (ScalableBloomFilter.new c p).contains d = false := by
  simp [ScalableBloomFilter.contains, ScalableBloomFilter.new,
    bloomLayer_fresh_has]

/-- Claim C1 (amended): for NaiveFilter, DigestFilter and BloomFilter the
first detect on a fresh instance returns true for every record; for the
adjacent filters the initial stored value is an ordinary value a real
record can equal (the empty record for SortedFilter, the string
"rcf_default" for ConsecutiveFilter), so the first detect returns true
exactly for records different from that initial value. -/
theorem runiq_c1_amended :
    (∀ x : List Nat, (NaiveFilter.new.detect x).1 = true) ∧
    (∀ x : List Nat, (DigestFilter.new.detect x).1 = true) ∧
    (∀ x : List Nat, (BloomFilter.new.detect x).1 = true) ∧
    (∀ x : List Nat, x ≠ [] → (SortedFilter.new.detect x).1 = true) ∧
    (∀ x : String, x ≠ "rcf_default" →
      (ConsecutiveFilter.new.detect x).1 = true) := by
  refine ⟨?_, ?_, ?_, ?_, ?_⟩
  · intro x
    simp [NaiveFilter.detect, NaiveFilter.new]
  · intro x
    simp [DigestFilter.detect, DigestFilter.new]
  · intro x
    simp [BloomFilter.detect, BloomFilter.new, sbf_new_contains]
  · intro x hx
    simp [SortedFilter.detect, SortedFilter.new, hx]
  · intro x hx
    simp [ConsecutiveFilter.detect, ConsecutiveFilter.new, hx]

/-- Claim C1 counterexample: on fresh adjacent filters the first detect
of the initial stored value itself returns false — the empty record for
SortedFilter, the string "rcf_default" for ConsecutiveFilter — so the
initial value is not a reserved sentinel no real record can equal. -/
theorem runiq_c1_counterexample :
    (SortedFilter.new.detect []).1 = false ∧
    (ConsecutiveFilter.new.detect "rcf_default").1 = false :=
  ⟨by decide, by decide⟩

/-- Witness for C1 (amended), at the concrete records `[97]` and "a". -/
theorem runiq_c1_witness :
    (SortedFilter.new.detect [97]).1 = true ∧
    (ConsecutiveFilter.new.detect "a").1 = true :=
  ⟨runiq_c1_amended.2.2.2.1 [97] (by decide),
   runiq_c1_amended.2.2.2.2 "a" (by decide)⟩

/-- Claim C3: for every strategy, a detect call that returns false
returns the state unchanged: the set-backed filters' sets are unchanged,
the adjacent filters do not overwrite the stored value, and the bloom
filter performs no insertion. -/
theorem runiq_c3 :
    (∀ (s : NaiveFilter) (x : List Nat),
      (s.detect x).1 = false → (s.detect x).2 = s) ∧
    (∀ (s : DigestFilter) (x : List Nat),
      (s.detect x).1 = false → (s.detect x).2 = s) ∧
    (∀ (s : SortedFilter) (x : List Nat),
      (s.detect x).1 = false → (s.detect x).2 = s) ∧
    (∀ (s : ConsecutiveFilter) (x : String),
      (s.detect x).1 = false → (s.detect x).2 = s) ∧
    (∀ (s : BloomFilter) (x : List Nat),
      (s.detect x).1 = false → (s.detect x).2 = s) := by
  refine ⟨?_, ?_, ?_, ?_, ?_⟩
  · intro s x h
    simp [NaiveFilter.detect] at h ⊢
    cases s with
    | mk inner => simp_all [Finset.insert_eq_self]
  · intro s x h
    simp [DigestFilter.detect] at h ⊢
    cases s with
    | mk inner => simp_all [Finset.insert_eq_self]
  · intro s x h
    by_cases hx : x = s.inner
    · simp [SortedFilter.detect, hx]
    · simp [SortedFilter.detect, hx] at h
  · intro s x h
    by_cases hx : x = s.inner
    · simp [ConsecutiveFilter.detect, hx]
    · simp [ConsecutiveFilter.detect, hx] at h
  · intro s x h
    by_cases hc : s.inner.contains (xxhash64 x 0) = true
    · simp [BloomFilter.detect, hc]
    · simp [BloomFilter.detect, hc] at h

/-- Witness for C3, at concrete states that already contain the record
`[97]` (or "a"), where detect returns false. -/
theorem runiq_c3_witness :
    ((⟨{[97]}⟩ : NaiveFilter).detect [97]).2 = ⟨{[97]}⟩ ∧
    ((⟨{xxhash64 [97] 0}⟩ : DigestFilter).detect [97]).2 =
      ⟨{xxhash64 [97] 0}⟩ ∧
    ((⟨[97]⟩ : SortedFilter).detect [97]).2 = ⟨[97]⟩ ∧
    ((⟨"a"⟩ : ConsecutiveFilter).detect "a").2 = ⟨"a"⟩ ∧
    ((BloomFilter.new.detect [97]).2.detect [97]).2 =
      (BloomFilter.new.detect [97]).2 :=
  ⟨runiq_c3.1 _ _ (by decide), runiq_c3.2.1 _ _ (by decide),
   runiq_c3.2.2.1 _ _ (by decide), runiq_c3.2.2.2.1 _ _ (by decide),
   runiq_c3.2.2.2.2 _ _ (by decide)⟩

/-- Claim C4: on fresh adjacent filters the call sequence detect "a";
detect "a"; detect "b"; detect "a" returns exactly true, false, true,
true, for both SortedFilter (on bytes) and ConsecutiveFilter (on
strings). -/
theorem runiq_c4 :
    (let r1 := SortedFilter.new.detect [97]
     let r2 := r1.2.detect [97]
     let r3 := r2.2.detect [98]
     let r4 := r3.2.detect [97]
     r1.1 = true ∧ r2.1 = false ∧ r3.1 = true ∧ r4.1 = true) ∧
    (let q1 := ConsecutiveFilter.new.detect "a"
     let q2 := q1.2.detect "a"
     let q3 := q2.2.detect "b"
     let q4 := q3.2.detect "a"
     q1.1 = true ∧ q2.1 = false ∧ q3.1 = true ∧ q4.1 = true) :=
  ⟨by decide, by decide⟩

/-- Permuted lists have the same set of elements. -/
theorem toFinset_perm_eq {α : Type} [DecidableEq α] {l l' : List α}
    (h : l.Perm l') : l.toFinset = l'.toFinset := by
  ext a
  simp [List.mem_toFinset, h.mem_iff]

/-- Folding `NaiveFilter::detect` accumulates exactly the set of records
seen. -/
theorem naive_run_inner (s : NaiveFilter) (l : List (List Nat)) :
    (s.run l).inner = s.inner ∪ l.toFinset := by
  induction l generalizing s with
  | nil => simp [NaiveFilter.run]
  | cons x xs ih =>
    have hrun : s.run (x :: xs) = ((s.detect x).2).run xs := rfl
    rw [hrun, ih]
    simp [NaiveFilter.detect, List.toFinset_cons, Finset.insert_union,
      Finset.union_insert]

/-- The number of `true` results of `NaiveFilter::detect` over a list is
the growth in the cardinality of the record set. -/
theorem naive_countNew_card (s : NaiveFilter) (l : List (List Nat)) :
    s.countNew l + s.inner.card = (s.run l).inner.card := by
  induction l generalizing s with
  | nil => simp [NaiveFilter.countNew, NaiveFilter.run]
  | cons x xs ih =>
    have hrun : s.run (x :: xs) = ((s.detect x).2).run xs := rfl
    have key : (if (s.detect x).1 then 1 else 0) + s.inner.card =
        ((s.detect x).2).inner.card := by
      by_cases hm : x ∈ s.inner
      · simp [NaiveFilter.detect, hm, Finset.insert_eq_self.mpr hm]
      · simp [NaiveFilter.detect, hm, Finset.card_insert_of_not_mem hm,
          Nat.add_comm]
    rw [hrun, NaiveFilter.countNew, ← ih ((s.detect x).2)]
    omega

/-- Folding `DigestFilter::detect` accumulates exactly the set of digests
of the records seen. -/
theorem digest_run_inner (s : DigestFilter) (l : List (List Nat)) :
    (s.run l).inner = s.inner ∪ (l.map (fun x => xxhash64 x 0)).toFinset := by
  induction l generalizing s with
  | nil => simp [DigestFilter.run]
  | cons x xs ih =>
    have hrun : s.run (x :: xs) = ((s.detect x).2).run xs := rfl
    rw [hrun, ih]
    simp [DigestFilter.detect, List.toFinset_cons, Finset.insert_union,
      Finset.union_insert]

/-- The number of `true` results of `DigestFilter::detect` over a list is
the growth in the cardinality of the digest set. -/
theorem digest_countNew_card (s : DigestFilter) (l : List (List Nat)) :
    s.countNew l + s.inner.card = (s.run l).inner.card := by
  induction l generalizing s with
  | nil => simp [DigestFilter.countNew, DigestFilter.run]
  | cons x xs ih =>
    have hrun : s.run (x :: xs) = ((s.detect x).2).run xs := rfl
    have key : (if (s.detect x).1 then 1 else 0) + s.inner.card =
        ((s.detect x).2).inner.card := by
      by_cases hm : xxhash64 x 0 ∈ s.inner
      · simp [DigestFilter.detect, hm, Finset.insert_eq_self.mpr hm]
      · simp [DigestFilter.detect, hm, Finset.card_insert_of_not_mem hm,
          Nat.add_comm]
    rw [hrun, DigestFilter.countNew, ← ih ((s.detect x).2)]
    omega

/-- Claim C5: for NaiveFilter and DigestFilter, folding detect over the
same multiset of distinct records in any order yields the same number of
true results on a fresh instance. -/
theorem runiq_c5 (l l' : List (List Nat)) (hnd : l.Nodup)
    (hp : l.Perm l') :
    NaiveFilter.new.countNew l = NaiveFilter.new.countNew l' ∧
    DigestFilter.new.countNew l = DigestFilter.new.countNew l' := by
  constructor
  · have h1 := naive_countNew_card NaiveFilter.new l
    have h2 := naive_countNew_card NaiveFilter.new l'
    rw [naive_run_inner] at h1 h2
    rw [toFinset_perm_eq hp] at h1
    omega
  · have h1 := digest_countNew_card DigestFilter.new l
    have h2 := digest_countNew_card DigestFilter.new l'
    rw [digest_run_inner] at h1 h2
    rw [toFinset_perm_eq (hp.map (fun x => xxhash64 x 0))] at h1
    omega

/-- Witness for C5, at the two-element lists `[[0], [1]]` and
`[[1], [0]]`. -/
theorem runiq_c5_witness :
    NaiveFilter.new.countNew [[0], [1]] =
      NaiveFilter.new.countNew [[1], [0]] ∧
    DigestFilter.new.countNew [[0], [1]] =
      DigestFilter.new.countNew [[1], [0]] :=
  runiq_c5 [[0], [1]] [[1], [0]] (by decide) (by decide)

/-- Claim C6: DigestFilter.detect computes the 64-bit digest of the
record, inserts it into the digest set, and returns true exactly when the
digest was not already present; hence after detect(x), a record y with
the same digest is reported as a duplicate even when its bytes differ. -/
theorem runiq_c6 :
    (∀ (s : DigestFilter) (x : List Nat),
      ((s.detect x).1 = true ↔ xxhash64 x 0 ∉ s.inner)) ∧
    (∀ (s : DigestFilter) (x : List Nat),
      ((s.detect x).2).inner = insert (xxhash64 x 0) s.inner) ∧
    (∀ (s : DigestFilter) (x y : List Nat), x ≠ y →
      xxhash64 x 0 = xxhash64 y 0 →
      (((s.detect x).2).detect y).1 = false) := by
  refine ⟨?_, ?_, ?_⟩
  · intro s x
    simp [DigestFilter.detect]
  · intro s x
    rfl
  · intro s x y hxy hh
    have hm : xxhash64 y 0 ∈ insert (xxhash64 x 0) s.inner := by
      rw [← hh]
      exact Finset.mem_insert_self _ _
    simp [DigestFilter.detect, hm]

/-- Witness for C6, at the colliding distinct records `[0, 31]` and
`[1, 0]` (both digest to 31 under the modelled fold digest). -/
theorem runiq_c6_witness :
    ((DigestFilter.new.detect [0, 31]).2.detect [1, 0]).1 = false :=
  runiq_c6.2.2 DigestFilter.new [0, 31] [1, 0] (by decide) (by decide)

/-- Recording a digest in a layer leaves its probe positions unchanged
(they depend only on the layer's size and probe count). -/
theorem layerProbes_record (a : BloomLayer) (d e : Nat) :
    layerProbes (a.record d) e = layerProbes a e := rfl

/-- A layer reports a digest positive right after recording it. -/
theorem bloomLayer_record_has_self (a : BloomLayer) (d : Nat) :
    (a.record d).has d = true := by
  rw [BloomLayer.has, List.all_eq_true]
  intro i hi
  rw [layerProbes_record] at hi
  simp only [BloomLayer.record, Finset.mem_union, List.mem_toFinset,
    decide_eq_true_eq]
  exact Or.inr hi

/-- Recording another digest never clears a positive report: layer bits
only grow. -/
theorem bloomLayer_record_has_mono (a : BloomLayer) (d e : Nat)
    (h : a.has e = true) : (a.record d).has e = true := by
  rw [BloomLayer.has, List.all_eq_true] at h ⊢
  intro i hi
  rw [layerProbes_record] at hi
  have h2 := h i hi
  simp only [decide_eq_true_eq] at h2
  simp only [BloomLayer.record, Finset.mem_union, List.mem_toFinset,
    decide_eq_true_eq]
  exact Or.inl h2

/-- Membership characterisation of the scalable filter's query: some
layer, active or older, reports all probes set. -/
theorem sbf_contains_iff (f : ScalableBloomFilter) (e : Nat) :
    f.contains e = true ↔
    (f.active.has e = true ∨ ∃ L ∈ f.older, L.has e = true) := by
  rw [ScalableBloomFilter.contains]
  simp [List.any_eq_true]

/-- A digest probes positive immediately after being inserted. -/
theorem sbf_insert_contains_self (f : ScalableBloomFilter) (d : Nat) :
    (f.insert d).contains d = true := by
  rw [sbf_contains_iff]
  simp only [ScalableBloomFilter.insert]
  split
  · right
    exact ⟨f.active.record d, by simp, bloomLayer_record_has_self _ _⟩
  · left
    exact bloomLayer_record_has_self _ _

/-- Insertion never clears a positive report: layers are only appended
and layer bits only grow. -/
theorem sbf_insert_contains_mono (f : ScalableBloomFilter) (d e : Nat)
    (h : f.contains e = true) : (f.insert d).contains e = true := by
  rw [sbf_contains_iff] at h ⊢
  simp only [ScalableBloomFilter.insert]
  split
  · rcases h with hact | ⟨L, hL, hLe⟩
    · right
      exact ⟨f.active.record d, by simp,
        bloomLayer_record_has_mono _ _ _ hact⟩
    · right
      exact ⟨L, by simp [hL], hLe⟩
  · rcases h with hact | ⟨L, hL, hLe⟩
    · left
      exact bloomLayer_record_has_mono _ _ _ hact
    · right
      exact ⟨L, hL, hLe⟩

/-- Records once in the naive filter's set stay there across any further
detect calls. -/
theorem naive_run_mem (s : NaiveFilter) (ys : List (List Nat))
    (v : List Nat) (h : v ∈ s.inner) : v ∈ (s.run ys).inner := by
  rw [naive_run_inner]
  exact Finset.mem_union_left _ h

/-- Digests once in the digest filter's set stay there across any further
detect calls. -/
theorem digest_run_mem (s : DigestFilter) (ys : List (List Nat))
    (v : Nat) (h : v ∈ s.inner) : v ∈ (s.run ys).inner := by
  rw [digest_run_inner]
  exact Finset.mem_union_left _ h

/-- A digest the bloom filter contains is still contained after any
further detect calls. -/
theorem bloom_run_contains (s : BloomFilter) (ys : List (List Nat))
    (d : Nat) (h : s.inner.contains d = true) :
    ((s.run ys).inner.contains d) = true := by
  induction ys generalizing s with
  | nil => exact h
  | cons y t ih =>
    have hstep : s.run (y :: t) = ((s.detect y).2).run t := rfl
    rw [hstep]
    apply ih
    rw [BloomFilter.detect]
    by_cases hc : s.inner.contains (xxhash64 y 0) = true
    · simpa [hc] using h
    · simpa [hc] using sbf_insert_contains_mono _ _ _ h

/-- Claim C2: once detect(x) has returned true, every subsequent
detect(x) on the same instance returns false — for the set-backed and
bloom strategies across arbitrary interleaved detect calls, and for the
adjacent filters as long as x is still the currently stored value. -/
theorem runiq_c2 :
    (∀ (s : NaiveFilter) (x : List Nat) (ys : List (List Nat)),
      (s.detect x).1 = true →
      ((((s.detect x).2).run ys).detect x).1 = false) ∧
    (∀ (s : DigestFilter) (x : List Nat) (ys : List (List Nat)),
      (s.detect x).1 = true →
      ((((s.detect x).2).run ys).detect x).1 = false) ∧
    (∀ (s : BloomFilter) (x : List Nat) (ys : List (List Nat)),
      (s.detect x).1 = true →
      ((((s.detect x).2).run ys).detect x).1 = false) ∧
    (∀ (s : SortedFilter) (x : List Nat) (ys : List (List Nat)),
      (s.detect x).1 = true →
      (((s.detect x).2).run ys).inner = x →
      ((((s.detect x).2).run ys).detect x).1 = false) ∧
    (∀ (s : ConsecutiveFilter) (x : String) (ys : List String),
      (s.detect x).1 = true →
      (((s.detect x).2).run ys).inner = x →
      ((((s.detect x).2).run ys).detect x).1 = false) := by
  refine ⟨?_, ?_, ?_, ?_, ?_⟩
  · intro s x ys h
    have hx : x ∈ ((s.detect x).2).inner := by
      simp [NaiveFilter.detect]
    have h2 := naive_run_mem _ ys _ hx
    set t := ((s.detect x).2).run ys with ht
    simp [NaiveFilter.detect, h2]
  · intro s x ys h
    have hx : xxhash64 x 0 ∈ ((s.detect x).2).inner := by
      simp [DigestFilter.detect]
    have h2 := digest_run_mem _ ys _ hx
    set t := ((s.detect x).2).run ys with ht
    simp [DigestFilter.detect, h2]
  · intro s x ys h
    have hins : ((s.detect x).2).inner.contains (xxhash64 x 0) = true := by
      rw [BloomFilter.detect] at h ⊢
      by_cases hc : s.inner.contains (xxhash64 x 0) = true
      · simp [hc] at h
      · simpa [hc] using sbf_insert_contains_self _ _
    have h2 := bloom_run_contains _ ys _ hins
    set t := ((s.detect x).2).run ys with ht
    rw [BloomFilter.detect]
    simp [h2]
  · intro s x ys h1 h2
    set t := ((s.detect x).2).run ys with ht
    simp [SortedFilter.detect, h2]
  · intro s x ys h1 h2
    set t := ((s.detect x).2).run ys with ht
    simp [ConsecutiveFilter.detect, h2]

/-- Witness for C2, at fresh instances with concrete records and one
interleaved detect call (none for the adjacent filters). -/
theorem runiq_c2_witness :
    ((((NaiveFilter.new.detect [1]).2).run [[2]]).detect [1]).1 = false ∧
    ((((DigestFilter.new.detect [1]).2).run [[2]]).detect [1]).1 = false ∧
    ((((BloomFilter.new.detect [97]).2).run [[98]]).detect [97]).1 = false ∧
    ((((SortedFilter.new.detect [97]).2).run []).detect [97]).1 = false ∧
    ((((ConsecutiveFilter.new.detect "a").2).run []).detect "a").1 = false :=
  ⟨runiq_c2.1 NaiveFilter.new [1] [[2]] (by decide),
   runiq_c2.2.1 DigestFilter.new [1] [[2]] (by decide),
   runiq_c2.2.2.1 BloomFilter.new [97] [[98]] (by decide),
   runiq_c2.2.2.2.1 SortedFilter.new [97] [] (by decide) (by decide),
   runiq_c2.2.2.2.2 ConsecutiveFilter.new "a" [] (by decide) (by decide)⟩

/-- Claim C7 (code behaviour at the failing input): on the
newline-terminated line "a\n" (bytes 97, 10) the driver's trimming code
first cuts the slice to length n - 1 and then indexes it at n - 1 again,
which is out of bounds — the trimming panics instead of yielding the
stripped record.  The same happens on every line that ends in a newline;
only a final line without a newline terminator is trimmed successfully. -/
theorem runiq_c7_trim_panics :
    trimLine [97, 10] = none ∧ trimLine [97, 13] = some [97] := by
  exact ⟨by decide, by decide⟩

/-- Claim C8: the default bloom filter construction passes initial
capacity 1,000,000 and error rate 1e-8 to the scalable filter, and these
values satisfy the precondition that the capacity be positive and the
error rate lie strictly between 0 and 1. -/
theorem runiq_c8 :
    BloomFilter.new.inner =
      ScalableBloomFilter.new 1000000 (mkRat 1 100000000) ∧
    BloomFilter.new.inner.active.capacity = 1000000 ∧
    BloomFilter.new.inner.active.err = mkRat 1 100000000 ∧
    (mkRat 1 100000000 : ℚ) = 1 / 100000000 ∧
    0 < BloomFilter.new.inner.active.capacity ∧
    0 < BloomFilter.new.inner.active.err ∧
    BloomFilter.new.inner.active.err < 1 := by
  refine ⟨rfl, rfl, rfl, ?_, by decide, by decide, by decide⟩
  norm_num [mkRat, Rat.normalize]

/-- Counting helper: applying a sequence of accumulator calls adds the
number of add_unique calls to the unique counter and the number of
add_unique plus add_duplicate calls to the total counter. -/
theorem stats_applyAll_counts (ops : List StatOp) (s : Stats) :
    ((s.applyAll ops).total = s.total + uniqueCount ops + dupCount ops) ∧
    ((s.applyAll ops).unique = s.unique + uniqueCount ops) := by
  induction ops generalizing s with
  | nil => simp [Stats.applyAll, uniqueCount, dupCount]
  | cons op t ih =>
    have hstep : s.applyAll (op :: t) = (s.apply op).applyAll t := rfl
    rw [hstep]
    obtain ⟨h1, h2⟩ := ih (s.apply op)
    cases op with
    | unique =>
      refine ⟨?_, ?_⟩
      · rw [h1]
        simp only [Stats.apply, Stats.add_unique, uniqueCount, dupCount]
        omega
      · rw [h2]
        simp only [Stats.apply, Stats.add_unique, uniqueCount, dupCount]
        omega
    | dup =>
      refine ⟨?_, ?_⟩
      · rw [h1]
        simp only [Stats.apply, Stats.add_duplicate, uniqueCount, dupCount]
        omega
      · rw [h2]
        simp only [Stats.apply, Stats.add_duplicate, uniqueCount, dupCount]
    | size n =>
      refine ⟨?_, ?_⟩
      · rw [h1]
        simp only [Stats.apply, Stats.add_size, uniqueCount, dupCount]
      · rw [h2]
        simp only [Stats.apply, Stats.add_size, uniqueCount, dupCount]

/-- Claim C9: after U add_unique calls and D add_duplicate calls in any
interleaving, total = U + D, uniques = U, duplicates = total - unique =
D, and the printed duplicate rate equals 100 - (U / (U + D)) * 100. -/
theorem runiq_c9 (ops : List StatOp)
    (hops : ∀ o ∈ ops, o = StatOp.unique ∨ o = StatOp.dup) :
    (Stats.new.applyAll ops).total = uniqueCount ops + dupCount ops ∧
    (Stats.new.applyAll ops).uniques = uniqueCount ops ∧
    (Stats.new.applyAll ops).duplicates = dupCount ops ∧
    (Stats.new.applyAll ops).dupRate =
      100 - ((uniqueCount ops : ℚ) /
        ((uniqueCount ops : ℚ) + (dupCount ops : ℚ))) * 100 := by
  obtain ⟨h1, h2⟩ := stats_applyAll_counts ops Stats.new
  have hz1 : Stats.new.total = 0 := rfl
  have hz2 : Stats.new.unique = 0 := rfl
  rw [hz1] at h1
  rw [hz2] at h2
  refine ⟨by omega, ?_, ?_, ?_⟩
  · rw [Stats.uniques, h2]
    omega
  · rw [Stats.duplicates]
    omega
  · rw [Stats.dupRate, Stats.rate, h1, h2]
    push_cast
    ring_nf

/-- Witness for C9, at the interleaving add_unique; add_duplicate;
add_unique (U = 2, D = 1). -/
theorem runiq_c9_witness :
    (Stats.new.applyAll [StatOp.unique, StatOp.dup, StatOp.unique]).total =
      uniqueCount [StatOp.unique, StatOp.dup, StatOp.unique] +
        dupCount [StatOp.unique, StatOp.dup, StatOp.unique] ∧
    (Stats.new.applyAll [StatOp.unique, StatOp.dup, StatOp.unique]).uniques =
      uniqueCount [StatOp.unique, StatOp.dup, StatOp.unique] ∧
    (Stats.new.applyAll
        [StatOp.unique, StatOp.dup, StatOp.unique]).duplicates =
      dupCount [StatOp.unique, StatOp.dup, StatOp.unique] ∧
    (Stats.new.applyAll [StatOp.unique, StatOp.dup, StatOp.unique]).dupRate =
      100 - ((uniqueCount [StatOp.unique, StatOp.dup, StatOp.unique] : ℚ) /
        ((uniqueCount [StatOp.unique, StatOp.dup, StatOp.unique] : ℚ) +
          (dupCount [StatOp.unique, StatOp.dup, StatOp.unique] : ℚ))) * 100 :=
  runiq_c9 [StatOp.unique, StatOp.dup, StatOp.unique] (by decide)

/-- The unique counter never exceeds the total counter: preserved by
every accumulator call. -/
theorem stats_unique_le_total (ops : List StatOp) (s : Stats)
    (h : s.unique ≤ s.total) :
    (s.applyAll ops).unique ≤ (s.applyAll ops).total := by
  induction ops generalizing s with
  | nil => exact h
  | cons op t ih =>
    have hstep : s.applyAll (op :: t) = (s.apply op).applyAll t := rfl
    rw [hstep]
    apply ih
    cases op <;>
      simp [Stats.apply, Stats.add_unique, Stats.add_duplicate,
        Stats.add_size] <;> omega

/-- Claim C10: in every state reachable from Stats::new by add_unique,
add_duplicate and add_size calls, unique is at most total, so the
unsigned subtraction in duplicates() is exact (never underflows). -/
theorem runiq_c10 (ops : List StatOp) :
    (Stats.new.applyAll ops).unique ≤ (Stats.new.applyAll ops).total ∧
    (Stats.new.applyAll ops).duplicates + (Stats.new.applyAll ops).unique =
      (Stats.new.applyAll ops).total := by
  have h := stats_unique_le_total ops Stats.new (by simp [Stats.new])
  refine ⟨h, ?_⟩
  rw [Stats.duplicates]
  omega
